import Mathlib

/-!
Shallow embedding of the `tok` crate (`src/lib.rs`): a session-token value
type `Token<S>` whose equality is a constant-time byte comparison, together
with its ordering, hashing and serde behaviour.

Bytes are modelled as `Nat` (the operations used on them, `^^^`, `|||` and
`compare`, agree with `u8` on values below 256, and every property proved
here holds for all `Nat`); a byte slice (`&[u8]`, the view obtained through
`AsRef<[u8]>`) is a `List Nat`.
-/

namespace Tok

/-- A byte of the backing storage, modelled as a natural number. -/
abbrev Byte := Nat

/-- Modelled from the spec: the equality of `Token` delegates to the external
`constant_time_eq` crate, whose source is not part of this repository.  Per
the spec (section 4.2) it compares all byte pairs unconditionally, with no
early return: it accumulates the bitwise OR of the XOR of every pair and
tests the accumulator only at the end; slices of different lengths are
unequal. -/
def constant_time_eq (a b : List Byte) : Bool :=
  if a.length ≠ b.length then false
  else ((a.zip b).foldl (fun tmp p => tmp ||| (p.1 ^^^ p.2)) 0) == 0

/-- Instrumented variant of `constant_time_eq` that additionally counts the
number of byte-compare (XOR-and-accumulate) operations executed. -/
def constant_time_eq_count (a b : List Byte) : Bool × Nat :=
  if a.length ≠ b.length then (false, 0)
  else
    let r := (a.zip b).foldl
      (fun (p : Nat × Nat) q => (p.1 ||| (q.1 ^^^ q.2), p.2 + 1)) (0, 0)
    (r.1 == 0, r.2)

/-- Translation of `pub struct Token<S>(S)` (`src/lib.rs` line 100): a token
wraps its backing byte storage, viewed through `AsRef<[u8]>` as a byte
slice. -/
structure Token where
  data : List Byte

/-- Translation of `Token::create` (`src/lib.rs` lines 104-106): wrap
caller-supplied bytes directly, with no validation (the `unsafe` escape
hatch). -/
def Token.create (d : List Byte) : Token := ⟨d⟩

/-- Translation of `PartialEq for Token<S>::eq` (`src/lib.rs` lines
118-123), which delegates to `Token::constant_time_eq` (lines 127-132),
itself a call of the external `constant_time_eq` on the two byte slices. -/
def Token.eq (a b : Token) : Bool :=
  constant_time_eq a.data b.data

/-- Translation of `PartialOrd for Token<S>::partial_cmp` (`src/lib.rs`
lines 134-155): when the lengths match, zip the two byte slices, compare
each pair (`filter_map` over `u8::partial_cmp`, which is always `Some`),
skip the `Equal` prefix and take the first remaining ordering, defaulting
to `Equal`; when the lengths differ, compare the lengths. -/
def Token.partial_cmp (a b : Token) : Option Ordering :=
  let len_self := a.data.length
  let len_other := b.data.length
  if len_self = len_other then
    some ((((a.data.zip b.data).filterMap
        (fun p => some (compare p.1 p.2))).dropWhile
        (fun ord => ord == Ordering.eq)).headD Ordering.eq)
  else
    some (compare len_self len_other)

/-- Translation of `Hash for Token<T>::hash` (`src/lib.rs` lines 180-185):
the backing data is fed to the hasher.  The external `Hasher` accumulator
is abstracted as a function of the byte sequence fed to it. -/
def Token.hash (hasher : List Byte → Nat) (t : Token) : Nat :=
  hasher t.data

/-- Modelled from the spec: `serde::Serialize for Token<T>` (`src/lib.rs`
lines 158-167) delegates to the backing array, whose serde instance is not
part of this repository; per the spec (section 4.5) serialization emits
exactly the backing bytes. -/
def Token.serialize (t : Token) : List Byte := t.data

/-- Modelled from the spec: `serde::Deserialize for Token<T>` (`src/lib.rs`
lines 169-178) delegates to the backing `[u8; N]` array, whose serde
instance is not part of this repository; per the spec (sections 4.5 and 7)
deserialization accepts exactly N bytes, rejects any other length with a
structural error, and wraps the accepted bytes through the unchecked
construction path (`Token::create`). -/
def Token.deserialize (N : Nat) (bytes : List Byte) : Option Token :=
  if bytes.length = N then some (Token.create bytes) else none

/-- Spec-side ordering on same-length byte slices, stated from the words of
section 4.3: scan byte pairs in order; the first pair whose natural byte
ordering differs determines the result; if no such pair exists the tokens
are equal-order. -/
def specLexCmp : List Byte → List Byte → Ordering
  | x :: xs, y :: ys => if x = y then specLexCmp xs ys else compare x y
  | _, _ => Ordering.eq

/-- Helper: a bitwise OR of naturals is zero exactly when both sides are. -/
theorem or_eq_zero_iff (a b : Nat) : a ||| b = 0 ↔ a = 0 ∧ b = 0 := by
  constructor
  · intro h
    refine ⟨Nat.eq_of_testBit_eq fun i => ?_, Nat.eq_of_testBit_eq fun i => ?_⟩ <;>
    · have hb := congrArg (fun n => n.testBit i) h
      simp only [Nat.testBit_or, Nat.zero_testBit, Bool.or_eq_false_iff] at hb
      simp [hb.1, hb.2]
  · rintro ⟨rfl, rfl⟩
    rfl

/-- Helper: the OR-of-XORs accumulator ends at zero exactly when it started
at zero and every visited pair of bytes is equal. -/
theorem ct_foldl_eq_zero (l : List (Byte × Byte)) (acc : Nat) :
    (l.foldl (fun tmp p => tmp ||| (p.1 ^^^ p.2)) acc = 0) ↔
      acc = 0 ∧ ∀ p ∈ l, p.1 = p.2 := by
  induction l generalizing acc with
  | nil => simp
  | cons hd tl ih =>
    rw [List.foldl_cons, ih, or_eq_zero_iff, Nat.xor_eq_zero]
    simp only [List.mem_cons]
    constructor
    · rintro ⟨⟨h1, h2⟩, h3⟩
      exact ⟨h1, fun p hp => hp.elim (fun e => e ▸ h2) (h3 p)⟩
    · rintro ⟨h1, h2⟩
      exact ⟨⟨h1, h2 hd (Or.inl rfl)⟩, fun p hp => h2 p (Or.inr hp)⟩

/-- Helper: same-length lists are equal exactly when every zipped pair is. -/
theorem zip_pairs_eq_iff (a b : List Byte) (h : a.length = b.length) :
    (∀ p ∈ a.zip b, p.1 = p.2) ↔ a = b := by
  induction a generalizing b with
  | nil =>
    cases b with
    | nil => simp
    | cons y ys => simp at h
  | cons x xs ih =>
    cases b with
    | nil => simp at h
    | cons y ys =>
      have h' : xs.length = ys.length := by simpa using h
      rw [List.zip_cons_cons]
      simp only [List.mem_cons, List.cons.injEq]
      rw [← ih ys h']
      constructor
      · intro hp
        exact ⟨hp (x, y) (Or.inl rfl), fun p hp2 => hp p (Or.inr hp2)⟩
      · rintro ⟨rfl, hp⟩ p hmem
        rcases hmem with rfl | hm
        · rfl
        · exact hp p hm

/-- Helper: `constant_time_eq` decides equality of the byte slices. -/
theorem constant_time_eq_iff (a b : List Byte) :
    constant_time_eq a b = true ↔ a = b := by
  unfold constant_time_eq
  rcases eq_or_ne a.length b.length with h | h
  · rw [if_neg (not_not_intro h), beq_iff_eq, ct_foldl_eq_zero,
      and_iff_right rfl]
    exact zip_pairs_eq_iff a b h
  · rw [if_pos h]
    simp only [Bool.false_eq_true, false_iff]
    exact fun e => h (by rw [e])

/-- Helper: token equality decides equality of the backing data. -/
theorem token_eq_iff (a b : Token) : a.eq b = true ↔ a.data = b.data :=
  constant_time_eq_iff a.data b.data

/-- Helper: the operation counter of the instrumented fold advances once per
visited pair, independently of the byte values. -/
theorem count_foldl_snd (l : List (Byte × Byte)) (p : Nat × Nat) :
    (l.foldl (fun p q => (p.1 ||| (q.1 ^^^ q.2), p.2 + 1)) p).2 =
      p.2 + l.length := by
  induction l generalizing p with
  | nil => simp
  | cons hd tl ih =>
    rw [List.foldl_cons, ih]
    simp
    omega

/-- Helper: the accumulator of the instrumented fold is the plain fold. -/
theorem count_foldl_fst (l : List (Byte × Byte)) (x n : Nat) :
    (l.foldl (fun p q => (p.1 ||| (q.1 ^^^ q.2), p.2 + 1)) (x, n)).1 =
      l.foldl (fun tmp q => tmp ||| (q.1 ^^^ q.2)) x := by
  induction l generalizing x n with
  | nil => rfl
  | cons hd tl ih =>
    rw [List.foldl_cons, List.foldl_cons, ih]

/-- Helper: a `filterMap` through an everywhere-`some` function is a map. -/
theorem filterMap_some_eq_map (l : List (Byte × Byte)) :
    l.filterMap (fun p => some (compare p.1 p.2)) =
      l.map (fun p => compare p.1 p.2) := by
  induction l with
  | nil => rfl
  | cons hd tl ih => simp [List.filterMap_cons, ih]

/-- Helper: on same-length backing data, `partial_cmp` computes the
spec-side first-difference comparison. -/
theorem partial_cmp_same_length_spec (a b : Token)
    (h : a.data.length = b.data.length) :
    a.partial_cmp b = some (specLexCmp a.data b.data) := by
  unfold Token.partial_cmp
  rw [if_pos h, filterMap_some_eq_map]
  congr 1
  generalize a.data = u at h ⊢
  generalize b.data = v at h ⊢
  induction u generalizing v with
  | nil =>
    cases v with
    | nil => rfl
    | cons y ys => simp at h
  | cons x xs ih =>
    cases v with
    | nil => simp at h
    | cons y ys =>
      have h' : xs.length = ys.length := by simpa using h
      rw [List.zip_cons_cons, List.map_cons, List.dropWhile_cons]
      by_cases hxy : x = y
      · subst hxy
        have hc : compare x x = Ordering.eq := Nat.compare_eq_eq.mpr rfl
        rw [hc, if_pos (show (Ordering.eq == Ordering.eq) = true from rfl),
          ih ys h']
        simp [specLexCmp]
      · have hc : (compare x y == Ordering.eq) = false := by
          cases hcc : compare x y with
          | lt => rfl
          | eq => exact absurd (Nat.compare_eq_eq.mp hcc) hxy
          | gt => rfl
        rw [hc]
        simp [specLexCmp, hxy]

/-- Helper: the spec-side comparison yields `eq` exactly on equal
same-length data. -/
theorem specLexCmp_eq_eq_iff (a b : List Byte) (h : a.length = b.length) :
    specLexCmp a b = Ordering.eq ↔ a = b := by
  induction a generalizing b with
  | nil =>
    cases b with
    | nil => simp [specLexCmp]
    | cons y ys => simp at h
  | cons x xs ih =>
    cases b with
    | nil => simp at h
    | cons y ys =>
      have h' : xs.length = ys.length := by simpa using h
      by_cases hxy : x = y
      · subst hxy
        simp [specLexCmp, ih ys h']
      · simp only [specLexCmp, if_neg hxy, List.cons.injEq]
        rw [Nat.compare_eq_eq]
        simp [hxy]

/-- Helper: on different-length backing data, `partial_cmp` compares the
lengths. -/
theorem partial_cmp_diff_length (a b : Token)
    (h : a.data.length ≠ b.data.length) :
    a.partial_cmp b = some (compare a.data.length b.data.length) := by
  unfold Token.partial_cmp
  rw [if_neg h]

/-- Claim C1: on two tokens backed by same-length (N-byte) sequences, the
equality executes exactly N byte-compare operations — the operation count
equals the length, independently of the byte contents and hence of where
(or whether) the first mismatch occurs — and the instrumented computation
returns the very same boolean as the equality (no early return on
mismatch). -/
theorem c1_equality_operation_count_constant (a b : List Byte)
    (h : a.length = b.length) :
    (constant_time_eq_count a b).2 = a.length ∧
      (constant_time_eq_count a b).1 = constant_time_eq a b := by
  unfold constant_time_eq_count constant_time_eq
  rw [if_neg (not_not_intro h), if_neg (not_not_intro h)]
  refine ⟨?_, ?_⟩
  · show ((a.zip b).foldl
        (fun (p : Nat × Nat) q => (p.1 ||| (q.1 ^^^ q.2), p.2 + 1)) (0, 0)).2 =
      a.length
    rw [count_foldl_snd]
    simp [List.length_zip, h]
  · show (((a.zip b).foldl
        (fun (p : Nat × Nat) q => (p.1 ||| (q.1 ^^^ q.2), p.2 + 1)) (0, 0)).1
          == 0) =
      (((a.zip b).foldl (fun tmp p => tmp ||| (p.1 ^^^ p.2)) 0) == 0)
    rw [count_foldl_fst]

/-- Witness for C1 at a concrete mismatching input. -/
theorem c1_equality_operation_count_constant_witness :
    ([1, 2, 3] : List Byte).length = ([1, 9, 3] : List Byte).length ∧
      ((constant_time_eq_count [1, 2, 3] [1, 9, 3]).2 =
          ([1, 2, 3] : List Byte).length ∧
        (constant_time_eq_count [1, 2, 3] [1, 9, 3]).1 =
          constant_time_eq [1, 2, 3] [1, 9, 3]) :=
  ⟨rfl, c1_equality_operation_count_constant [1, 2, 3] [1, 9, 3] rfl⟩

/-- Claim C2: for tokens with same-length backing data the ordering
comparison yields exactly one of `lt`, `eq`, `gt`, and it yields `eq` if
and only if the (constant-time) equality holds. -/
theorem c2_trichotomy_and_eq_consistency (a b : Token)
    (h : a.data.length = b.data.length) :
    ∃ o, a.partial_cmp b = some o ∧
      ((o = Ordering.lt ∧ o ≠ Ordering.eq ∧ o ≠ Ordering.gt) ∨
        (o = Ordering.eq ∧ o ≠ Ordering.lt ∧ o ≠ Ordering.gt) ∨
        (o = Ordering.gt ∧ o ≠ Ordering.lt ∧ o ≠ Ordering.eq)) ∧
      (o = Ordering.eq ↔ a.eq b = true) := by
  refine ⟨specLexCmp a.data b.data, partial_cmp_same_length_spec a b h, ?_, ?_⟩
  · cases specLexCmp a.data b.data with
    | lt => exact Or.inl ⟨rfl, by decide, by decide⟩
    | eq => exact Or.inr (Or.inl ⟨rfl, by decide, by decide⟩)
    | gt => exact Or.inr (Or.inr ⟨rfl, by decide, by decide⟩)
  · rw [specLexCmp_eq_eq_iff a.data b.data h]
    exact (token_eq_iff a b).symm

/-- Witness for C2 at a concrete same-length input. -/
theorem c2_trichotomy_and_eq_consistency_witness :
    ∃ o, (Token.create [5, 6]).partial_cmp (Token.create [5, 7]) = some o ∧
      ((o = Ordering.lt ∧ o ≠ Ordering.eq ∧ o ≠ Ordering.gt) ∨
        (o = Ordering.eq ∧ o ≠ Ordering.lt ∧ o ≠ Ordering.gt) ∨
        (o = Ordering.gt ∧ o ≠ Ordering.lt ∧ o ≠ Ordering.eq)) ∧
      (o = Ordering.eq ↔
        (Token.create [5, 6]).eq (Token.create [5, 7]) = true) :=
  c2_trichotomy_and_eq_consistency (Token.create [5, 6])
    (Token.create [5, 7]) rfl

/-- Claim C3: equality is reflexive for every token, whatever its byte
content, and in particular two tokens built by the unchecked constructor
from identical byte sequences are equal. -/
theorem c3_eq_reflexive :
    (∀ t : Token, t.eq t = true) ∧
      ∀ bytes : List Byte,
        (Token.create bytes).eq (Token.create bytes) = true :=
  have hrefl : ∀ t : Token, t.eq t = true :=
    fun t => (token_eq_iff t t).mpr rfl
  ⟨hrefl, fun bytes => hrefl (Token.create bytes)⟩

/-- Claim C4: on same-length backing data the ordering comparison scans
byte pairs in index order and returns the natural byte ordering of the
first differing pair (the spec-worded `specLexCmp`); if no pair differs it
returns `eq`. -/
theorem c4_same_length_first_difference (a b : Token)
    (h : a.data.length = b.data.length) :
    a.partial_cmp b = some (specLexCmp a.data b.data) ∧
      (a.data = b.data → a.partial_cmp b = some Ordering.eq) := by
  refine ⟨partial_cmp_same_length_spec a b h, fun he => ?_⟩
  rw [partial_cmp_same_length_spec a b h,
    (specLexCmp_eq_eq_iff a.data b.data h).mpr he]

/-- Witness for C4 at a concrete same-length input. -/
theorem c4_same_length_first_difference_witness :
    (Token.create [1, 2]).partial_cmp (Token.create [1, 3]) =
        some (specLexCmp (Token.create [1, 2]).data
          (Token.create [1, 3]).data) ∧
      ((Token.create [1, 2]).data = (Token.create [1, 3]).data →
        (Token.create [1, 2]).partial_cmp (Token.create [1, 3]) =
          some Ordering.eq) :=
  c4_same_length_first_difference (Token.create [1, 2])
    (Token.create [1, 3]) rfl

/-- Claim C5: on different-length backing data the ordering comparison is
determined by length alone — it is the comparison of the lengths, so the
shorter token orders strictly before the longer one regardless of byte
content. -/
theorem c5_length_determines_order (a b : Token)
    (h : a.data.length ≠ b.data.length) :
    a.partial_cmp b = some (compare a.data.length b.data.length) ∧
      (a.data.length < b.data.length → a.partial_cmp b = some Ordering.lt) ∧
      (b.data.length < a.data.length → a.partial_cmp b = some Ordering.gt) := by
  refine ⟨partial_cmp_diff_length a b h, fun hlt => ?_, fun hgt => ?_⟩
  · rw [partial_cmp_diff_length a b h, Nat.compare_eq_lt.mpr hlt]
  · rw [partial_cmp_diff_length a b h, Nat.compare_eq_gt.mpr hgt]

/-- Witness for C5 at a concrete pair of different lengths. -/
theorem c5_length_determines_order_witness :
    (Token.create [9]).partial_cmp (Token.create [1, 1]) =
        some (compare (Token.create [9]).data.length
          (Token.create [1, 1]).data.length) ∧
      ((Token.create [9]).data.length < (Token.create [1, 1]).data.length →
        (Token.create [9]).partial_cmp (Token.create [1, 1]) =
          some Ordering.lt) ∧
      ((Token.create [1, 1]).data.length < (Token.create [9]).data.length →
        (Token.create [9]).partial_cmp (Token.create [1, 1]) =
          some Ordering.gt) :=
  c5_length_determines_order (Token.create [9]) (Token.create [1, 1])
    (by decide)

/-- Claim C6: serialization followed by deserialization is the identity up
to equality — for a token whose backing data has the expected length N,
deserializing its serialization succeeds, returns the very same token, and
any token so returned is equal to the original. -/
theorem c6_serde_roundtrip (N : Nat) (t : Token) (h : t.data.length = N) :
    Token.deserialize N t.serialize = some t ∧
      ∀ u, Token.deserialize N t.serialize = some u → u.eq t = true := by
  have hd : Token.deserialize N t.serialize = some t := by
    unfold Token.serialize Token.deserialize
    rw [if_pos h]
    rfl
  refine ⟨hd, fun u hu => ?_⟩
  rw [hd, Option.some_inj] at hu
  subst hu
  exact (token_eq_iff t t).mpr rfl

/-- Witness for C6 at a concrete token. -/
theorem c6_serde_roundtrip_witness :
    Token.deserialize 2 (Token.create [3, 4]).serialize =
        some (Token.create [3, 4]) ∧
      ∀ u, Token.deserialize 2 (Token.create [3, 4]).serialize = some u →
        u.eq (Token.create [3, 4]) = true :=
  c6_serde_roundtrip 2 (Token.create [3, 4]) rfl

/-- Claim C7: hashing is consistent with equality — whenever two tokens are
equal, feeding either one to the same hash accumulator yields the same
value. -/
theorem c7_hash_consistent_with_eq (hasher : List Byte → Nat) (a b : Token)
    (h : a.eq b = true) : a.hash hasher = b.hash hasher := by
  unfold Token.hash
  rw [(token_eq_iff a b).mp h]

/-- Witness for C7 at a concrete hasher and equal tokens. -/
theorem c7_hash_consistent_with_eq_witness :
    (Token.create [1, 2]).eq (Token.create [1, 2]) = true ∧
      (Token.create [1, 2]).hash List.sum =
        (Token.create [1, 2]).hash List.sum :=
  ⟨by decide,
    c7_hash_consistent_with_eq List.sum (Token.create [1, 2])
      (Token.create [1, 2]) (by decide)⟩

/-- Claim C8: on same-length backing data the comparison operations are
total — the ordering comparison always returns a result (never the
no-ordering outcome `none`) and the equality always returns a boolean. -/
theorem c8_comparisons_total (a b : Token)
    (h : a.data.length = b.data.length) :
    (a.partial_cmp b).isSome = true ∧ a.partial_cmp b ≠ none ∧
      (a.eq b = true ∨ a.eq b = false) := by
  rw [partial_cmp_same_length_spec a b h]
  refine ⟨rfl, Option.some_ne_none _, ?_⟩
  cases a.eq b
  · exact Or.inr rfl
  · exact Or.inl rfl

/-- Witness for C8 at a concrete same-length input. -/
theorem c8_comparisons_total_witness :
    ((Token.create [1]).partial_cmp (Token.create [2])).isSome = true ∧
      (Token.create [1]).partial_cmp (Token.create [2]) ≠ none ∧
      ((Token.create [1]).eq (Token.create [2]) = true ∨
        (Token.create [1]).eq (Token.create [2]) = false) :=
  c8_comparisons_total (Token.create [1]) (Token.create [2]) rfl

/-- Claim C9: deserialization of a byte sequence whose length is not N
fails (no truncation or padding), and deserialization of exactly N bytes
produces, via the unchecked construction path, a token holding exactly
those bytes. -/
theorem c9_deserialize_exact_length (N : Nat) (bytes : List Byte) :
    (bytes.length ≠ N → Token.deserialize N bytes = none) ∧
      (bytes.length = N →
        Token.deserialize N bytes = some (Token.create bytes)) := by
  constructor
  · intro h
    unfold Token.deserialize
    rw [if_neg h]
  · intro h
    unfold Token.deserialize
    rw [if_pos h]

/-- Witness for C9 at a too-long and an exact-length input. -/
theorem c9_deserialize_exact_length_witness :
    Token.deserialize 2 [7, 8, 9] = none ∧
      Token.deserialize 2 [7, 8] = some (Token.create [7, 8]) :=
  ⟨(c9_deserialize_exact_length 2 [7, 8, 9]).1 (by decide),
    (c9_deserialize_exact_length 2 [7, 8]).2 rfl⟩

/-- Claim C10: equality is symmetric — for every pair of tokens, of any
backing lengths, comparing in either direction gives the same boolean. -/
theorem c10_eq_symmetric (a b : Token) : a.eq b = b.eq a := by
  cases hab : a.eq b <;> cases hba : b.eq a
  · rfl
  · have htrue : a.eq b = true :=
      (token_eq_iff a b).mpr ((token_eq_iff b a).mp hba).symm
    rw [hab] at htrue
    exact htrue
  · have htrue : b.eq a = true :=
      (token_eq_iff b a).mpr ((token_eq_iff a b).mp hab).symm
    rw [hba] at htrue
    exact htrue.symm
  · rfl

end Tok
